import Mathlib

/-!
Verification of the hbs-report-generator client and aggregator.

The Python source (src/hubstaff.py, src/generator.py) is embedded shallowly:

* pydantic models become Lean structures with value equality;
* Python `dict`s become association lists built by insert-or-overwrite
  (`dictInsert`), preserving insertion order as CPython dicts do;
* Python `set.update` becomes `setUnion`, an insert-if-absent fold;
* `sorted` on strings becomes insertion sort over the linear order on `String`;
* the `while has_next_page` pagination loops become fuel-indexed loops over a
  server modelled as a function from request index to response, recording the
  `page_start_id` parameter sent with every request;
* the tenacity retry decorator (`retry_if_not_exception_type(ValidationError)`,
  `stop_after_attempt(3)`, `wait_fixed(1)`, `reraise=True`) becomes `retrySend`,
  which also counts underlying calls and accumulated wait seconds;
* raising becomes `Option`/`Except` results (`none` = the Python call raised).
-/

namespace HbsReport

/-! ## Data model (src/hubstaff.py, response models) -/

/-- Embeds `OrganizationModel` (id, name). -/
structure OrganizationModel where
  id : Int
  name : String
deriving DecidableEq, Repr

/-- Embeds `OrganizationsResponse`: an optional pagination cursor
(`next_page_start_id` of the `PageableModel`, `none` when the `pagination`
field is absent) and the page's list of organizations. -/
structure OrganizationsResponse where
  pagination : Option Int
  organizations : List OrganizationModel
deriving DecidableEq, Repr

/-- Embeds the frozen pydantic model `User`; equality is value equality over
all fields. -/
structure User where
  id : Int
  name : String
  first_name : String
  last_name : String
  email : String
  time_zone : String
  status : String
deriving DecidableEq, Repr

/-- Embeds the frozen pydantic model `Project`; equality is value equality
over all fields. -/
structure Project where
  id : Int
  name : String
  status : String
  billable : Bool
deriving DecidableEq, Repr

/-- Embeds `DailyActivity`. -/
structure DailyActivity where
  id : Int
  date : String
  user_id : Int
  project_id : Int
  task_id : Option Int
  tracked : Int
  manual : Int
  billable : Int
deriving DecidableEq, Repr

/-- Embeds `DailyActivitiesResponse`.  The Python `users` and `projects`
fields are `Set`s; they are modelled as the lists obtained by iterating those
sets, and all set-forming operations on them (`setUnion`) keep them free of
duplicates. -/
structure DailyActivitiesResponse where
  pagination : Option Int
  daily_activities : List DailyActivity
  users : List User
  projects : List Project
deriving DecidableEq, Repr

/-! ## Python dict as an association list

CPython dict semantics: insertion order is preserved; re-inserting an existing
key overwrites the value in place, keeping the key's original position. -/

/-- Insert-or-overwrite, keeping the position of an existing key (CPython
dict assignment). -/
def dictInsert [DecidableEq α] (k : α) (v : β) : List (α × β) → List (α × β)
  | [] => [(k, v)]
  | p :: rest => if p.1 = k then (k, v) :: rest else p :: dictInsert k v rest

/-- Builds a dict from a list of key/value pairs, later pairs overwriting
earlier ones — the semantics of a Python dict comprehension over the list. -/
def dictOf [DecidableEq α] (l : List (α × β)) : List (α × β) :=
  l.foldl (fun d kv => dictInsert kv.1 kv.2 d) []

/-- Builds a dict whose keys come from `keys` (duplicates collapsing) and
whose value at `k` is `f k` — a dict comprehension over `keys`. -/
def dictOfKeys [DecidableEq α] (f : α → β) (keys : List α) : List (α × β) :=
  keys.foldl (fun d k => dictInsert k (f k) d) []

/-- Dict lookup (`d[k]` wrapped in `Option`: `none` models the `KeyError`). -/
def dictGet [DecidableEq α] (k : α) : List (α × β) → Option β
  | [] => none
  | p :: rest => if p.1 = k then some p.2 else dictGet k rest

/-- The keys of a dict, in order. -/
def dictKeys (d : List (α × β)) : List α := d.map Prod.fst

/-- The values of a dict, in order (`d.values()`). -/
def dictValues (d : List (α × β)) : List β := d.map Prod.snd

/-! ## Python set union -/

/-- Adds one element to a set-as-list if not already present. -/
def insertAbsent [DecidableEq α] (acc : List α) (x : α) : List α :=
  if x ∈ acc then acc else acc ++ [x]

/-- Set union by value equality (`s.update(t)`): the elements of `t` are folded
into `s`, skipping those already present. -/
def setUnion [DecidableEq α] (s t : List α) : List α :=
  t.foldl insertAbsent s

/-! ## Sorting (Python `sorted` over strings) -/

/-- The standard order on strings, phrased on the underlying character lists
so that it evaluates by kernel reduction; `strLe_iff_le` identifies it with
`· ≤ ·` on `String`. -/
def strLe (a b : String) : Prop := a.toList ≤ b.toList

instance : DecidableRel strLe :=
  fun a b => inferInstanceAs (Decidable (a.toList ≤ b.toList))

instance : IsTotal String strLe :=
  ⟨fun a b => by
    rcases le_total a b with h | h
    · exact Or.inl (String.le_iff_toList_le.mp h)
    · exact Or.inr (String.le_iff_toList_le.mp h)⟩

instance : IsTrans String strLe :=
  ⟨fun _ _ _ hab hbc =>
    String.le_iff_toList_le.mp
      (le_trans (String.le_iff_toList_le.mpr hab) (String.le_iff_toList_le.mpr hbc))⟩

/-- Ascending sort of strings — `sorted(...)`.  Since the order on `String`
is linear, the result is the unique `≤`-sorted permutation of the input,
which is exactly what CPython's `sorted` returns. -/
def sortedAsc (l : List String) : List String := l.insertionSort strLe

/-! ## Aggregator (src/generator.py, `accumulate_activities`) -/

/-- The aggregated matrix: an ordered mapping project name → (ordered mapping
user name → accumulated tracked seconds).  `timedelta` values are represented
by their exact number of seconds. -/
abbrev ActivityMatrix := List (String × List (String × Int))

/-- Adds `t` seconds to key `u` of an inner row; `none` when the key is
missing (Python would raise `KeyError`). -/
def addCellInner (u : String) (t : Int) : List (String × Int) → Option (List (String × Int))
  | [] => none
  | (k, v) :: rest =>
    if k = u then some ((k, v + t) :: rest)
    else (addCellInner u t rest).map (fun r => (k, v) :: r)

/-- Adds `t` seconds to cell `(p, u)` of the matrix
(`summary[p][u] += timedelta(seconds=t)`); `none` when a key is missing. -/
def addCell (p u : String) (t : Int) : ActivityMatrix → Option ActivityMatrix
  | [] => none
  | (k, row) :: rest =>
    if k = p then (addCellInner u t row).map (fun r => (k, r) :: rest)
    else (addCell p u t rest).map (fun m => (k, row) :: m)

/-- The `project_id → name` lookup dict built from the response. -/
def projectMapOf (r : DailyActivitiesResponse) : List (Int × String) :=
  dictOf (r.projects.map fun p => (p.id, p.name))

/-- The `user_id → name` lookup dict built from the response. -/
def userMapOf (r : DailyActivitiesResponse) : List (Int × String) :=
  dictOf (r.users.map fun u => (u.id, u.name))

/-- The summarizing loop of `accumulate_activities`: resolves each activity's
ids through the lookup dicts and adds its tracked seconds to the matching
cell; `none` models the `KeyError` raised on a failed lookup. -/
def accumLoop (project_map user_map : List (Int × String)) :
    List DailyActivity → ActivityMatrix → Option ActivityMatrix
  | [], summary => some summary
  | a :: rest, summary =>
    match dictGet a.project_id project_map, dictGet a.user_id user_map with
    | some project_name, some user_name =>
      match addCell project_name user_name a.tracked summary with
      | some summary2 => accumLoop project_map user_map rest summary2
      | none => none
    | _, _ => none

/-- Embeds `accumulate_activities` (src/generator.py:38-54): builds the id→name
lookup dicts, the zero-initialized cross table over the sorted name sets, and
folds the activities in; `none` models the `KeyError` on an unresolvable id. -/
def accumulate_activities (activities : DailyActivitiesResponse) : Option ActivityMatrix :=
  let project_map := projectMapOf activities
  let user_map := userMapOf activities
  let daily_activity_summary :=
    dictOfKeys
      (fun _ => dictOfKeys (fun _ => (0 : Int)) (sortedAsc (dictValues user_map)))
      (sortedAsc (dictValues project_map))
  accumLoop project_map user_map activities.daily_activities daily_activity_summary

/-! ## Observation helpers for the matrix -/

/-- The row keys (project names) of a matrix, in order. -/
def rowKeys (m : ActivityMatrix) : List String := m.map Prod.fst

/-- The column keys (user names) of one row, in order. -/
def colKeys (row : List (String × Int)) : List String := row.map Prod.fst

/-- Reads cell `(p, u)` of the matrix. -/
def cellGet (m : ActivityMatrix) (p u : String) : Option Int :=
  (dictGet p m).bind (dictGet u)

/-- The total tracked seconds of the activities that resolve to project name
`p` and user name `u` through the two lookup dicts. -/
def trackedSum (pm um : List (Int × String)) (p u : String) : List DailyActivity → Int
  | [] => 0
  | a :: rest =>
    (if dictGet a.project_id pm = some p ∧ dictGet a.user_id um = some u
      then a.tracked else 0)
      + trackedSum pm um p u rest

/-! ## Retry wrapper (src/hubstaff.py, `__send_request` decorator)

The tenacity decorator is
`retry(retry=retry_if_not_exception_type(pydantic.ValidationError),
stop=stop_after_attempt(3), wait=wait_fixed(1), reraise=True)`.
One underlying call either returns a value or raises; `outcomes k` is the
outcome of the `k`-th underlying call (0-based). -/

/-- The errors a request operation can raise: a transport failure (connection
error, timeout, or the `HTTPError` raised by the `raise_for_status` response
hook on a non-2xx status) or a pydantic schema-validation failure.  The
`String` payload identifies the concrete error, so that re-raising unchanged
is observable. -/
inductive ReqError where
  | transport (info : String)
  | validation (info : String)
deriving DecidableEq, Repr

/-- One run of the tenacity-wrapped call.  `remaining` counts the retries
still allowed after the current attempt (2 at the start, for 3 attempts
total), `k` is the index of the current attempt, `w` the seconds of fixed
delay slept so far.  Returns the final outcome (re-raised unchanged on
failure), the number of underlying calls made, and the total wait. -/
def retrySend (outcomes : Nat → Except ReqError α) :
    Nat → Nat → Nat → Except ReqError α × Nat × Nat
  | 0, k, w => (outcomes k, k + 1, w)
  | r + 1, k, w =>
    match outcomes k with
    | Except.ok v => (Except.ok v, k + 1, w)
    | Except.error (ReqError.validation s) => (Except.error (ReqError.validation s), k + 1, w)
    | Except.error (ReqError.transport _) => retrySend outcomes r (k + 1) (w + 1)

/-- Embeds the retry behaviour of `Hubstaff.__send_request`: up to 3 attempts
total, fixed 1-second wait between attempts, `ValidationError` never retried,
the last error re-raised unchanged. -/
def send_request (outcomes : Nat → Except ReqError α) : Except ReqError α × Nat × Nat :=
  retrySend outcomes 2 0 0

/-! ## Session construction (src/hubstaff.py, `__init__` / `authenticate`) -/

/-- The constructed client: `__init__` stores the validated `auth_token` in
the session's params. -/
structure Hubstaff where
  auth_token : String
deriving DecidableEq, Repr

/-- Embeds `Hubstaff.__init__`: authenticates through `__send_request` (hence
through the retry wrapper) and stores the token; an error of the sign-in
call propagates out of the constructor.  Returns also the number of
underlying sign-in calls made. -/
def hubstaffInit (signinOutcomes : Nat → Except ReqError String) :
    Except ReqError Hubstaff × Nat :=
  match send_request signinOutcomes with
  | (Except.ok tok, n, _) => (Except.ok ⟨tok⟩, n)
  | (Except.error e, n, _) => (Except.error e, n)

/-! ## Pagination (src/hubstaff.py, `get_organizations` / `get_operations_by_day`)

The server is modelled as a function from request index to the (validated)
response of that request; each loop iteration issues one request.  `fuel`
bounds the number of iterations the model can unfold: `none` means the
`while has_next_page` loop was still running after `fuel` requests.  The
`trace` records the `page_start_id` parameter sent with each request
(`none` on the first request, where the params dict has no such key). -/

/-- The `while has_next_page` loop of `get_organizations`. -/
def get_organizations_loop (server : Nat → OrganizationsResponse) :
    Nat → Nat → Option Int → List OrganizationModel → List (Option Int) →
    Option (List OrganizationModel × List (Option Int))
  | 0, _, _, _, _ => none
  | fuel + 1, k, param, acc, trace =>
    let response := server k
    let acc2 := acc ++ response.organizations
    let trace2 := trace ++ [param]
    match response.pagination with
    | some nid => get_organizations_loop server fuel (k + 1) (some nid) acc2 trace2
    | none => some (acc2, trace2)

/-- Embeds `Hubstaff.get_organizations`: starts with an empty accumulator and
no `page_start_id`, follows the cursor until a page omits it. -/
def get_organizations (server : Nat → OrganizationsResponse) (fuel : Nat) :
    Option (List OrganizationModel × List (Option Int)) :=
  get_organizations_loop server fuel 0 none [] []

/-- The `while has_next_page` loop of `get_operations_by_day`: appends
`daily_activities` in arrival order and unions `users` and `projects` by
value equality. -/
def get_operations_loop (server : Nat → DailyActivitiesResponse) :
    Nat → Nat → Option Int → DailyActivitiesResponse → List (Option Int) →
    Option (DailyActivitiesResponse × List (Option Int))
  | 0, _, _, _, _ => none
  | fuel + 1, k, param, result, trace =>
    let response := server k
    let result2 : DailyActivitiesResponse :=
      { result with
          daily_activities := result.daily_activities ++ response.daily_activities
          users := setUnion result.users response.users
          projects := setUnion result.projects response.projects }
    let trace2 := trace ++ [param]
    match response.pagination with
    | some nid => get_operations_loop server fuel (k + 1) (some nid) result2 trace2
    | none => some (result2, trace2)

/-- Embeds `Hubstaff.get_operations_by_day` for a fixed organization and date
range (those select the path and headers and do not influence the loop):
accumulators start empty, the cursor is followed until a page omits it. -/
def get_operations_by_day (server : Nat → DailyActivitiesResponse) (fuel : Nat) :
    Option (DailyActivitiesResponse × List (Option Int)) :=
  get_operations_loop server fuel 0 none ⟨none, [], [], []⟩ []

/-- Embeds the start of a client run (src/generator.py, `main` /
`produce_report`): construct the `Hubstaff` session, then issue the first API
call (`get_organizations`).  Returns the outcome, the number of sign-in
calls, and the number of subsequent API requests issued; an error raised by
the constructor propagates before any API request is made. -/
def clientRun (signinOutcomes : Nat → Except ReqError String)
    (orgServer : Nat → OrganizationsResponse) (fuel : Nat) :
    Except ReqError (Option (List OrganizationModel)) × Nat × Nat :=
  match hubstaffInit signinOutcomes with
  | (Except.error e, n) => (Except.error e, n, 0)
  | (Except.ok _, n) =>
    match get_organizations orgServer fuel with
    | none => (Except.ok none, n, fuel)
    | some (orgs, trace) => (Except.ok (some orgs), n, trace.length)

/-! ## Concrete test data (used by the witnesses and counterexamples) -/

/-- Project "A" of the spec's aggregation example. -/
def exProjA : Project := ⟨1, "A", "active", true⟩

/-- Project "B" of the spec's aggregation example. -/
def exProjB : Project := ⟨2, "B", "active", false⟩

/-- User "X" of the spec's aggregation example. -/
def exUserX : User := ⟨10, "X", "Xf", "Xl", "x@example.com", "UTC", "active"⟩

/-- User "Y" of the spec's aggregation example. -/
def exUserY : User := ⟨11, "Y", "Yf", "Yl", "y@example.com", "UTC", "active"⟩

/-- The activity (A, X, tracked=3600) of the spec's aggregation example. -/
def actAX : DailyActivity := ⟨100, "2024-09-02", 10, 1, none, 3600, 0, 0⟩

/-- A second activity (B, Y, tracked=1800). -/
def actBY : DailyActivity := ⟨101, "2024-09-02", 11, 2, some 5, 1800, 0, 0⟩

/-- The spec's aggregation example: projects A and B, users X and Y, one
activity (A, X, tracked=3600). -/
def exResp : DailyActivitiesResponse :=
  ⟨none, [actAX], [exUserX, exUserY], [exProjA, exProjB]⟩

/-- Same projects/users with two activities in one order. -/
def exResp2a : DailyActivitiesResponse :=
  ⟨none, [actAX, actBY], [exUserX, exUserY], [exProjA, exProjB]⟩

/-- Same as `exResp2a` with the two activities in the other order. -/
def exResp2b : DailyActivitiesResponse :=
  ⟨none, [actBY, actAX], [exUserX, exUserY], [exProjA, exProjB]⟩

/-- A response whose two (value-distinct) projects share id 1 under
different names. -/
def respDupIds : DailyActivitiesResponse :=
  ⟨none, [], [], [⟨1, "A", "active", true⟩, ⟨1, "B", "active", true⟩]⟩

/-- An activity whose `project_id` 99 resolves through no project. -/
def actBadLookup : DailyActivity := ⟨100, "2024-09-02", 10, 99, none, 3600, 0, 0⟩

/-- A response containing an activity with an unresolvable `project_id`. -/
def respBadLookup : DailyActivitiesResponse :=
  ⟨none, [actBadLookup], [exUserX], [exProjA]⟩

/-- Two projects with distinct ids sharing the name "P". -/
def pShared1 : Project := ⟨1, "P", "active", true⟩

/-- Second project named "P". -/
def pShared2 : Project := ⟨2, "P", "active", true⟩

/-- Two users with distinct ids sharing the name "U". -/
def uShared1 : User := ⟨10, "U", "Uf", "Ul", "u@example.com", "UTC", "active"⟩

/-- Second user named "U". -/
def uShared2 : User := ⟨11, "U", "Vf", "Vl", "v@example.com", "UTC", "active"⟩

/-- A response with two name-sharing projects and two name-sharing users,
with one activity on each entity pair. -/
def respShared : DailyActivitiesResponse :=
  ⟨none, [⟨100, "2024-09-02", 10, 1, none, 100, 0, 0⟩,
      ⟨101, "2024-09-02", 11, 2, none, 50, 0, 0⟩],
    [uShared1, uShared2], [pShared1, pShared2]⟩

/-- First organizations page, carrying a cursor. -/
def orgPage0 : OrganizationsResponse := ⟨some 7, [⟨1, "Org1"⟩]⟩

/-- Last organizations page, no cursor. -/
def orgLastPage : OrganizationsResponse := ⟨none, [⟨2, "Org2"⟩]⟩

/-- A two-page organizations server. -/
def orgServerEx : Nat → OrganizationsResponse :=
  fun k => [orgPage0, orgLastPage].getD k orgLastPage

/-- First operations page, carrying a cursor. -/
def opPage0 : DailyActivitiesResponse := ⟨some 3, [actAX], [exUserX], [exProjA]⟩

/-- Last operations page, no cursor; shares `exUserX` with the first page. -/
def opLastPage : DailyActivitiesResponse :=
  ⟨none, [actBY], [exUserY, exUserX], [exProjB]⟩

/-- A two-page operations server. -/
def opServerEx : Nat → DailyActivitiesResponse :=
  fun k => [opPage0, opLastPage].getD k opLastPage

/-- Two operations pages both carrying the same project and user values. -/
def opPageShared0 : DailyActivitiesResponse :=
  ⟨some 3, [], [uShared1], [pShared1]⟩

/-- Last page repeating the project and user of `opPageShared0`. -/
def opPageSharedLast : DailyActivitiesResponse :=
  ⟨none, [], [uShared1], [pShared1]⟩

/-- Server for the duplicated-value pages. -/
def opServerShared : Nat → DailyActivitiesResponse :=
  fun k => [opPageShared0, opPageSharedLast].getD k opPageSharedLast

/-- Underlying-call outcomes failing with a transport error twice, then
succeeding. -/
def outcomesTransientEx : Nat → Except ReqError String :=
  fun k =>
    match k with
    | 0 => Except.error (ReqError.transport "connection reset")
    | 1 => Except.error (ReqError.transport "read timeout")
    | _ => Except.ok "payload"

/-- Underlying-call outcomes failing with a schema-validation error. -/
def outcomesValidationEx : Nat → Except ReqError String :=
  fun _ => Except.error (ReqError.validation "missing field auth_token")

/-- A sign-in endpoint answering a non-2xx status on every attempt (the
response hook turns the status into an `HTTPError`, a transport error). -/
def signinRejectEx : Nat → Except ReqError String :=
  fun _ => Except.error (ReqError.transport "HTTP 401 Unauthorized")

/-! ## Lemmas: dicts -/

theorem strLe_iff_le (a b : String) : strLe a b ↔ a ≤ b :=
  String.le_iff_toList_le.symm

theorem dictGet_dictInsert_self [DecidableEq α] (k : α) (v : β) (d : List (α × β)) :
    dictGet k (dictInsert k v d) = some v := by
  induction d with
  | nil => simp [dictInsert, dictGet]
  | cons p rest ih =>
    by_cases h : p.1 = k
    · simp [dictInsert, dictGet, h]
    · simp [dictInsert, dictGet, h, ih]

theorem dictGet_dictInsert_ne [DecidableEq α] {k k' : α} (v : β) (d : List (α × β))
    (h : k' ≠ k) : dictGet k' (dictInsert k v d) = dictGet k' d := by
  induction d with
  | nil => simp [dictInsert, dictGet, Ne.symm h]
  | cons p rest ih =>
    by_cases hp : p.1 = k
    · subst hp
      simp [dictInsert, dictGet, Ne.symm h]
    · simp [dictInsert, dictGet, hp, ih]

theorem dictKeys_dictInsert [DecidableEq α] (k : α) (v : β) (d : List (α × β)) :
    dictKeys (dictInsert k v d) = insertAbsent (dictKeys d) k := by
  induction d with
  | nil => simp [dictInsert, dictKeys, insertAbsent]
  | cons p rest ih =>
    by_cases h : p.1 = k
    · simp [dictInsert, dictKeys, insertAbsent, h]
    · have hne : k ≠ p.1 := fun hh => h hh.symm
      simp only [dictInsert, if_neg h, dictKeys, List.map_cons, insertAbsent, List.mem_cons]
      by_cases hk : k ∈ rest.map Prod.fst
      · simp only [dictKeys, insertAbsent, if_pos hk] at ih
        simp [hk, ih]
      · simp only [dictKeys, insertAbsent, if_neg hk] at ih
        simp [hk, hne, ih]

theorem dictGet_eq_none_iff [DecidableEq α] (k : α) (d : List (α × β)) :
    dictGet k d = none ↔ k ∉ dictKeys d := by
  induction d with
  | nil => simp [dictGet, dictKeys]
  | cons p rest ih =>
    by_cases h : p.1 = k
    · simp [dictGet, dictKeys, h]
    · rw [dictGet, if_neg h, ih, dictKeys, dictKeys, List.map_cons]
      simp [List.mem_cons, Ne.symm h]

theorem dictGet_mem_values [DecidableEq α] {k : α} {d : List (α × β)} {v : β}
    (h : dictGet k d = some v) : v ∈ dictValues d := by
  induction d with
  | nil => simp [dictGet] at h
  | cons p rest ih =>
    by_cases hp : p.1 = k
    · simp only [dictGet, if_pos hp, Option.some.injEq] at h
      simp [dictValues, h]
    · simp only [dictGet, if_neg hp] at h
      have hv := ih h
      simp only [dictValues, List.map_cons] at hv ⊢
      exact List.mem_cons.mpr (Or.inr hv)

theorem dictGet_of_mem_nodup [DecidableEq α] {l : List (α × β)} {k : α} {v : β}
    (hnd : (l.map Prod.fst).Nodup) (hmem : (k, v) ∈ l) : dictGet k l = some v := by
  induction l with
  | nil => simp at hmem
  | cons p rest ih =>
    simp only [List.map_cons, List.nodup_cons] at hnd
    rcases List.mem_cons.mp hmem with h | h
    · subst h
      simp [dictGet]
    · have hk : p.1 ≠ k := by
        intro he
        exact hnd.1 (he ▸ List.mem_map.mpr ⟨(k, v), h, rfl⟩)
      simp [dictGet, hk, ih hnd.2 h]

/-! ## Lemmas: set union -/

theorem mem_insertAbsent [DecidableEq α] (x y : α) (acc : List α) :
    x ∈ insertAbsent acc y ↔ x ∈ acc ∨ x = y := by
  unfold insertAbsent
  by_cases h : y ∈ acc
  · simp only [if_pos h]
    constructor
    · exact Or.inl
    · rintro (hx | rfl)
      · exact hx
      · exact h
  · simp [if_neg h]

theorem nodup_insertAbsent [DecidableEq α] (y : α) {acc : List α} (h : acc.Nodup) :
    (insertAbsent acc y).Nodup := by
  unfold insertAbsent
  by_cases hy : y ∈ acc
  · simpa [if_pos hy]
  · simpa [if_neg hy, List.nodup_append, h] using hy

theorem mem_setUnion [DecidableEq α] (x : α) (s t : List α) :
    x ∈ setUnion s t ↔ x ∈ s ∨ x ∈ t := by
  induction t generalizing s with
  | nil => simp [setUnion]
  | cons a t ih =>
    show x ∈ setUnion (insertAbsent s a) t ↔ _
    rw [ih, mem_insertAbsent]
    simp only [List.mem_cons, or_assoc]

theorem nodup_setUnion [DecidableEq α] {s : List α} (t : List α) (h : s.Nodup) :
    (setUnion s t).Nodup := by
  induction t generalizing s with
  | nil => exact h
  | cons a t ih => exact ih (nodup_insertAbsent a h)

theorem setUnion_eq_append_sublist [DecidableEq α] (s t : List α) :
    ∃ t', setUnion s t = s ++ t' ∧ t'.Sublist t := by
  induction t generalizing s with
  | nil => exact ⟨[], by simp [setUnion], List.Sublist.refl []⟩
  | cons a t ih =>
    show ∃ t', setUnion (insertAbsent s a) t = s ++ t' ∧ _
    unfold insertAbsent
    by_cases h : a ∈ s
    · rw [if_pos h]
      obtain ⟨t', ht, hs⟩ := ih s
      exact ⟨t', ht, hs.cons a⟩
    · rw [if_neg h]
      obtain ⟨t', ht, hs⟩ := ih (s ++ [a])
      exact ⟨a :: t', by simpa using ht, hs.cons₂ a⟩

/-! ## Lemmas: dict construction -/

theorem dictInsert_of_not_mem [DecidableEq α] {k : α} (v : β) {d : List (α × β)}
    (h : k ∉ dictKeys d) : dictInsert k v d = d ++ [(k, v)] := by
  induction d with
  | nil => simp [dictInsert]
  | cons p rest ih =>
    simp only [dictKeys, List.map_cons, List.mem_cons] at h
    push_neg at h
    rw [dictInsert, if_neg (Ne.symm h.1), ih h.2]
    rfl

theorem foldl_dictInsert_of_nodup [DecidableEq α] (l : List (α × β)) :
    ∀ d : List (α × β), (l.map Prod.fst).Nodup →
      (∀ k, k ∈ l.map Prod.fst → k ∉ dictKeys d) →
      l.foldl (fun d kv => dictInsert kv.1 kv.2 d) d = d ++ l := by
  induction l with
  | nil => intro d _ _; simp
  | cons p rest ih =>
    intro d hnd hdisj
    simp only [List.map_cons, List.nodup_cons] at hnd
    have hp : p.1 ∉ dictKeys d := hdisj p.1 (by simp)
    have hstep : dictInsert p.1 p.2 d = d ++ [p] := dictInsert_of_not_mem p.2 hp
    simp only [List.foldl_cons, hstep]
    rw [ih (d ++ [p]) hnd.2]
    · simp
    · intro k hk
      simp only [dictKeys, List.map_append, List.mem_append, List.map_cons]
      push_neg
      constructor
      · exact hdisj k (by simp [hk])
      · simp only [List.map_nil, List.mem_singleton]
        intro he
        exact hnd.1 (he ▸ hk)

theorem dictOf_eq_self [DecidableEq α] {l : List (α × β)}
    (hnd : (l.map Prod.fst).Nodup) : dictOf l = l := by
  have := foldl_dictInsert_of_nodup l [] hnd (by simp [dictKeys])
  simpa [dictOf] using this

theorem dictGet_foldl_dictInsert [DecidableEq α] (f : α → β) (keys : List α) :
    ∀ (d : List (α × β)) (k : α),
      dictGet k (keys.foldl (fun d k' => dictInsert k' (f k') d) d)
        = if k ∈ keys then some (f k) else dictGet k d := by
  induction keys with
  | nil => intro d k; simp
  | cons a keys ih =>
    intro d k
    simp only [List.foldl_cons]
    rw [ih]
    by_cases hk : k ∈ keys
    · simp [hk]
    · by_cases hka : k = a
      · subst hka
        simp [hk, dictGet_dictInsert_self]
      · simp [hk, hka, dictGet_dictInsert_ne _ _ hka]

theorem dictGet_dictOfKeys [DecidableEq α] (f : α → β) (keys : List α) (k : α) :
    dictGet k (dictOfKeys f keys) = if k ∈ keys then some (f k) else none := by
  rw [dictOfKeys, dictGet_foldl_dictInsert]
  simp [dictGet]

theorem dictKeys_foldl_dictInsert [DecidableEq α] (f : α → β) (keys : List α) :
    ∀ d : List (α × β),
      dictKeys (keys.foldl (fun d k' => dictInsert k' (f k') d) d)
        = setUnion (dictKeys d) keys := by
  induction keys with
  | nil => intro d; simp [setUnion]
  | cons a keys ih =>
    intro d
    simp only [List.foldl_cons]
    rw [ih, dictKeys_dictInsert]
    rfl

theorem dictKeys_dictOfKeys [DecidableEq α] (f : α → β) (keys : List α) :
    dictKeys (dictOfKeys f keys) = setUnion [] keys := by
  rw [dictOfKeys, dictKeys_foldl_dictInsert]
  rfl

theorem mem_dictInsert [DecidableEq α] {pr : α × β} {k : α} {v : β} {d : List (α × β)}
    (h : pr ∈ dictInsert k v d) : pr = (k, v) ∨ pr ∈ d := by
  induction d with
  | nil => simpa [dictInsert] using h
  | cons p rest ih =>
    rw [dictInsert] at h
    by_cases hp : p.1 = k
    · rw [if_pos hp] at h
      rcases List.mem_cons.mp h with h | h
      · exact Or.inl h
      · exact Or.inr (List.mem_cons.mpr (Or.inr h))
    · rw [if_neg hp] at h
      rcases List.mem_cons.mp h with h | h
      · exact Or.inr (List.mem_cons.mpr (Or.inl h))
      · rcases ih h with h | h
        · exact Or.inl h
        · exact Or.inr (List.mem_cons.mpr (Or.inr h))

theorem mem_foldl_dictInsert [DecidableEq α] (f : α → β) (keys : List α) :
    ∀ (d : List (α × β)) (pr : α × β),
      pr ∈ keys.foldl (fun d k' => dictInsert k' (f k') d) d →
      pr ∈ d ∨ ∃ k ∈ keys, pr = (k, f k) := by
  induction keys with
  | nil => intro d pr h; exact Or.inl h
  | cons a keys ih =>
    intro d pr h
    simp only [List.foldl_cons] at h
    rcases ih (dictInsert a (f a) d) pr h with h | ⟨k, hk, he⟩
    · rcases mem_dictInsert h with h | h
      · exact Or.inr ⟨a, by simp, h⟩
      · exact Or.inl h
    · exact Or.inr ⟨k, by simp [hk], he⟩

theorem snd_mem_dictOfKeys [DecidableEq α] {f : α → β} {keys : List α} {pr : α × β}
    (h : pr ∈ dictOfKeys f keys) : pr.2 = f pr.1 := by
  rcases mem_foldl_dictInsert f keys [] pr h with h | ⟨k, _, he⟩
  · simp at h
  · rw [he]

/-! ## Lemmas: sorting -/

theorem sortedAsc_perm (l : List String) : List.Perm (sortedAsc l) l :=
  List.perm_insertionSort strLe l

theorem mem_sortedAsc (x : String) (l : List String) : x ∈ sortedAsc l ↔ x ∈ l :=
  (sortedAsc_perm l).mem_iff

theorem sortedAsc_sorted (l : List String) : List.Sorted (· ≤ ·) (sortedAsc l) :=
  (List.sorted_insertionSort strLe l).imp (fun h => (strLe_iff_le _ _).mp h)

theorem dedup_of_sorted_pairwise_lt {keys : List String}
    (h : List.Sorted (· ≤ ·) keys) : List.Pairwise (· < ·) (setUnion [] keys) := by
  obtain ⟨t', ht, hs⟩ := setUnion_eq_append_sublist [] keys
  rw [List.nil_append] at ht
  have hle : List.Pairwise (· ≤ ·) (setUnion [] keys) := by
    rw [ht]; exact h.sublist hs
  have hnd : (setUnion ([] : List String) keys).Nodup :=
    nodup_setUnion keys List.nodup_nil
  exact (hle.and hnd).imp (fun hp => lt_of_le_of_ne hp.1 hp.2)

/-! ## Lemmas: cell update -/

theorem addCellInner_isSome (u : String) (t : Int) (row : List (String × Int)) :
    (addCellInner u t row).isSome = true ↔ u ∈ colKeys row := by
  induction row with
  | nil => simp [addCellInner, colKeys]
  | cons p rest ih =>
    by_cases h : p.1 = u
    · simp [addCellInner, colKeys, h]
    · simp only [addCellInner, if_neg h, colKeys, List.map_cons, List.mem_cons]
      rw [Option.isSome_map']
      simp only [colKeys] at ih
      rw [ih]
      simp [Ne.symm h]

theorem addCellInner_some_keys {u : String} {t : Int}
    {row row' : List (String × Int)} (h : addCellInner u t row = some row') :
    colKeys row' = colKeys row := by
  induction row generalizing row' with
  | nil => simp [addCellInner] at h
  | cons p rest ih =>
    by_cases hp : p.1 = u
    · rw [addCellInner, if_pos hp] at h
      cases h
      simp [colKeys, hp]
    · rw [addCellInner, if_neg hp] at h
      rcases Option.map_eq_some'.mp h with ⟨r', hr', he⟩
      subst he
      simpa [colKeys] using ih hr'

theorem addCellInner_some_get {u : String} {t : Int}
    {row row' : List (String × Int)} (h : addCellInner u t row = some row') (w : String) :
    dictGet w row' = if w = u then (dictGet w row).map (· + t) else dictGet w row := by
  induction row generalizing row' with
  | nil => simp [addCellInner] at h
  | cons p rest ih =>
    by_cases hp : p.1 = u
    · rw [addCellInner, if_pos hp] at h
      cases h
      by_cases hw : w = u
      · subst hw
        simp [dictGet, hp]
      · have hpw : p.1 ≠ w := by
          rw [hp]
          exact Ne.symm hw
        simp [dictGet, hpw, hw]
    · rw [addCellInner, if_neg hp] at h
      rcases Option.map_eq_some'.mp h with ⟨r', hr', he⟩
      subst he
      by_cases hw : p.1 = w
      · subst hw
        have : ¬ p.1 = u := hp
        simp [dictGet, this, Ne.symm hp]
      · simp [dictGet, hw, ih hr']

theorem addCell_some_keys {p u : String} {t : Int} {m m' : ActivityMatrix}
    (h : addCell p u t m = some m') : rowKeys m' = rowKeys m := by
  induction m generalizing m' with
  | nil => simp [addCell] at h
  | cons pr rest ih =>
    by_cases hp : pr.1 = p
    · rw [addCell, if_pos hp] at h
      rcases Option.map_eq_some'.mp h with ⟨r', _, he⟩
      subst he
      simp [rowKeys]
    · rw [addCell, if_neg hp] at h
      rcases Option.map_eq_some'.mp h with ⟨m₂, hm₂, he⟩
      subst he
      simpa [rowKeys] using ih hm₂

theorem addCell_some_cols {p u : String} {t : Int} {m m' : ActivityMatrix}
    (h : addCell p u t m = some m') :
    ∀ pr' ∈ m', ∃ pr ∈ m, colKeys pr'.2 = colKeys pr.2 := by
  induction m generalizing m' with
  | nil => simp [addCell] at h
  | cons q rest ih =>
    by_cases hp : q.1 = p
    · rw [addCell, if_pos hp] at h
      rcases Option.map_eq_some'.mp h with ⟨r', hr', he⟩
      subst he
      intro pr' hpr'
      rcases List.mem_cons.mp hpr' with he | hm
      · subst he
        exact ⟨q, List.mem_cons_self q rest, addCellInner_some_keys hr'⟩
      · exact ⟨pr', List.mem_cons.mpr (Or.inr hm), rfl⟩
    · rw [addCell, if_neg hp] at h
      rcases Option.map_eq_some'.mp h with ⟨m₂, hm₂, he⟩
      subst he
      intro pr' hpr'
      rcases List.mem_cons.mp hpr' with he | hm
      · subst he
        exact ⟨q, List.mem_cons_self _ _, rfl⟩
      · rcases ih hm₂ pr' hm with ⟨pr, hpr, hc⟩
        exact ⟨pr, List.mem_cons.mpr (Or.inr hpr), hc⟩

theorem addCell_succeeds {p u : String} (t : Int) {m : ActivityMatrix}
    (hp : p ∈ rowKeys m) (hu : ∀ pr ∈ m, u ∈ colKeys pr.2) :
    ∃ m', addCell p u t m = some m' := by
  induction m with
  | nil => simp [rowKeys] at hp
  | cons q rest ih =>
    by_cases hq : q.1 = p
    · have : u ∈ colKeys q.2 := hu q (List.mem_cons_self q rest)
      rcases Option.isSome_iff_exists.mp ((addCellInner_isSome u t q.2).mpr this)
        with ⟨r', hr'⟩
      refine ⟨(q.1, r') :: rest, ?_⟩
      rw [addCell, if_pos hq, hr']
      rfl
    · have hp' : p ∈ rowKeys rest := by
        rcases List.mem_cons.mp hp with he | hm
        · exact absurd he.symm hq
        · exact hm
      rcases ih hp' (fun pr hpr => hu pr (List.mem_cons.mpr (Or.inr hpr))) with ⟨m₂, hm₂⟩
      refine ⟨q :: m₂, ?_⟩
      rw [addCell]
      cases q with
      | mk qk qrow =>
        rw [if_neg hq, hm₂]
        rfl

theorem addCell_cellGet {p u : String} {t : Int} {m m' : ActivityMatrix}
    (h : addCell p u t m = some m') (q w : String) :
    cellGet m' q w
      = if q = p ∧ w = u then (cellGet m q w).map (· + t) else cellGet m q w := by
  induction m generalizing m' with
  | nil => simp [addCell] at h
  | cons pr rest ih =>
    by_cases hk : pr.1 = p
    · rw [addCell, if_pos hk] at h
      rcases Option.map_eq_some'.mp h with ⟨r', hr', he⟩
      subst he
      by_cases hq : q = p
      · subst hq
        have hkq : pr.1 = q := hk
        simp only [cellGet, dictGet, if_pos hkq, Option.some_bind]
        rw [addCellInner_some_get hr' w]
        by_cases hw : w = u
        · simp [hw]
        · simp [hw]
      · have hkq : pr.1 ≠ q := fun he => hq (he ▸ hk : q = p)
        simp only [cellGet, dictGet, if_neg hkq, hq, false_and, if_false]
    · rw [addCell, if_neg hk] at h
      rcases Option.map_eq_some'.mp h with ⟨m₂, hm₂, he⟩
      subst he
      by_cases hq : pr.1 = q
      · have : ¬(q = p ∧ w = u) := fun hc => hk (hq.trans hc.1)
        simp only [cellGet, dictGet, if_pos hq, Option.some_bind, this, if_false]
      · simp only [cellGet, dictGet, if_neg hq]
        exact ih hm₂

/-! ## Lemmas: the accumulation loop -/

theorem accumLoop_some_keys (pm um : List (Int × String)) (l : List DailyActivity) :
    ∀ m m', accumLoop pm um l m = some m' → rowKeys m' = rowKeys m := by
  induction l with
  | nil =>
    intro m m' h
    rw [accumLoop] at h
    cases h
    rfl
  | cons a rest ih =>
    intro m m' h
    rw [accumLoop] at h
    cases hpn : dictGet a.project_id pm with
    | none =>
      simp only [hpn] at h
      exact Option.noConfusion h
    | some pn =>
      cases hun : dictGet a.user_id um with
      | none =>
        simp only [hpn, hun] at h
        exact Option.noConfusion h
      | some un =>
        simp only [hpn, hun] at h
        cases hadd : addCell pn un a.tracked m with
        | none =>
          simp only [hadd] at h
          exact Option.noConfusion h
        | some m₁ =>
          simp only [hadd] at h
          exact (ih m₁ m' h).trans (addCell_some_keys hadd)

theorem accumLoop_some_cols (pm um : List (Int × String)) (l : List DailyActivity) :
    ∀ m m', accumLoop pm um l m = some m' →
      ∀ pr' ∈ m', ∃ pr ∈ m, colKeys pr'.2 = colKeys pr.2 := by
  induction l with
  | nil =>
    intro m m' h
    rw [accumLoop] at h
    cases h
    exact fun pr hpr => ⟨pr, hpr, rfl⟩
  | cons a rest ih =>
    intro m m' h
    rw [accumLoop] at h
    cases hpn : dictGet a.project_id pm with
    | none =>
      simp only [hpn] at h
      exact Option.noConfusion h
    | some pn =>
      cases hun : dictGet a.user_id um with
      | none =>
        simp only [hpn, hun] at h
        exact Option.noConfusion h
      | some un =>
        simp only [hpn, hun] at h
        cases hadd : addCell pn un a.tracked m with
        | none =>
          simp only [hadd] at h
          exact Option.noConfusion h
        | some m₁ =>
          simp only [hadd] at h
          intro pr' hpr'
          rcases ih m₁ m' h pr' hpr' with ⟨pr₁, hpr₁, hc₁⟩
          rcases addCell_some_cols hadd pr₁ hpr₁ with ⟨pr, hpr, hc⟩
          exact ⟨pr, hpr, hc₁.trans hc⟩

theorem accumLoop_cellGet (pm um : List (Int × String)) (l : List DailyActivity) :
    ∀ m m', accumLoop pm um l m = some m' →
      ∀ q w, cellGet m' q w = (cellGet m q w).map (· + trackedSum pm um q w l) := by
  induction l with
  | nil =>
    intro m m' h q w
    rw [accumLoop] at h
    cases h
    rw [trackedSum]
    cases cellGet m q w <;> simp
  | cons a rest ih =>
    intro m m' h q w
    rw [accumLoop] at h
    cases hpn : dictGet a.project_id pm with
    | none =>
      simp only [hpn] at h
      exact Option.noConfusion h
    | some pn =>
      cases hun : dictGet a.user_id um with
      | none =>
        simp only [hpn, hun] at h
        exact Option.noConfusion h
      | some un =>
        simp only [hpn, hun] at h
        cases hadd : addCell pn un a.tracked m with
        | none =>
          simp only [hadd] at h
          exact Option.noConfusion h
        | some m₁ =>
          simp only [hadd] at h
          rw [ih m₁ m' h q w, addCell_cellGet hadd q w, trackedSum, hpn, hun]
          by_cases hc : q = pn ∧ w = un
          · rw [if_pos hc]
            have hc' : some pn = some q ∧ some un = some w := by
              simp [hc.1, hc.2]
            rw [if_pos hc']
            cases cellGet m q w <;> simp [add_assoc]
          · rw [if_neg hc]
            have hc' : ¬(some pn = some q ∧ some un = some w) := by
              intro hcc
              exact hc ⟨(Option.some.injEq _ _ ▸ hcc.1).symm,
                (Option.some.injEq _ _ ▸ hcc.2).symm⟩
            rw [if_neg hc', zero_add]

theorem accumLoop_succeeds (pm um : List (Int × String)) (l : List DailyActivity) :
    ∀ m : ActivityMatrix,
      (∀ a ∈ l, (dictGet a.project_id pm).isSome = true
        ∧ (dictGet a.user_id um).isSome = true) →
      (∀ v ∈ dictValues pm, v ∈ rowKeys m) →
      (∀ pr ∈ m, ∀ v ∈ dictValues um, v ∈ colKeys pr.2) →
      ∃ m', accumLoop pm um l m = some m' := by
  induction l with
  | nil =>
    intro m _ _ _
    exact ⟨m, rfl⟩
  | cons a rest ih =>
    intro m hres hrow hcol
    obtain ⟨hps, hus⟩ := hres a (List.mem_cons_self a rest)
    rcases Option.isSome_iff_exists.mp hps with ⟨pn, hpn⟩
    rcases Option.isSome_iff_exists.mp hus with ⟨un, hun⟩
    have hpnr : pn ∈ rowKeys m := hrow pn (dictGet_mem_values hpn)
    have hunr : ∀ pr ∈ m, un ∈ colKeys pr.2 :=
      fun pr hpr => hcol pr hpr un (dictGet_mem_values hun)
    rcases addCell_succeeds a.tracked hpnr hunr with ⟨m₁, hm₁⟩
    have hrow₁ : ∀ v ∈ dictValues pm, v ∈ rowKeys m₁ := by
      rw [addCell_some_keys hm₁]
      exact hrow
    have hcol₁ : ∀ pr ∈ m₁, ∀ v ∈ dictValues um, v ∈ colKeys pr.2 := by
      intro pr' hpr' v hv
      rcases addCell_some_cols hm₁ pr' hpr' with ⟨pr, hpr, hc⟩
      rw [hc]
      exact hcol pr hpr v hv
    rcases ih m₁ (fun b hb => hres b (List.mem_cons.mpr (Or.inr hb))) hrow₁ hcol₁
      with ⟨m', hm'⟩
    refine ⟨m', ?_⟩
    rw [accumLoop]
    simp only [hpn, hun, hm₁]
    exact hm'

theorem accumLoop_none_of_unresolved (pm um : List (Int × String))
    {l : List DailyActivity} {a : DailyActivity} (ha : a ∈ l)
    (hbad : dictGet a.project_id pm = none ∨ dictGet a.user_id um = none) :
    ∀ m, accumLoop pm um l m = none := by
  induction l with
  | nil => simp at ha
  | cons b rest ih =>
    intro m
    rw [accumLoop]
    rcases List.mem_cons.mp ha with he | hm
    · subst he
      rcases hbad with hb | hb
      · simp only [hb]
      · simp only [hb]
        cases dictGet a.project_id pm <;> rfl
    · cases hpn : dictGet b.project_id pm with
      | none => rfl
      | some pn =>
        cases hun : dictGet b.user_id um with
        | none => rfl
        | some un =>
          simp only
          cases hadd : addCell pn un b.tracked m with
          | none => rfl
          | some m₁ =>
            simp only
            exact ih hm m₁

/-! ## Lemmas: assembling accumulate_activities -/

theorem dictKeys_foldl_dictInsert_pairs [DecidableEq α] (l : List (α × β)) :
    ∀ d : List (α × β),
      dictKeys (l.foldl (fun d kv => dictInsert kv.1 kv.2 d) d)
        = setUnion (dictKeys d) (l.map Prod.fst) := by
  induction l with
  | nil => intro d; simp [setUnion]
  | cons p l ih =>
    intro d
    simp only [List.foldl_cons, List.map_cons]
    rw [ih, dictKeys_dictInsert]
    rfl

theorem mem_dictKeys_dictOf [DecidableEq α] (l : List (α × β)) (k : α) :
    k ∈ dictKeys (dictOf l) ↔ k ∈ l.map Prod.fst := by
  rw [dictOf, dictKeys_foldl_dictInsert_pairs]
  rw [show dictKeys ([] : List (α × β)) = [] from rfl, mem_setUnion]
  simp

theorem dictGet_isSome_iff [DecidableEq α] (k : α) (d : List (α × β)) :
    (dictGet k d).isSome = true ↔ k ∈ dictKeys d := by
  rw [← Option.ne_none_iff_isSome, Ne, dictGet_eq_none_iff, not_not]

theorem dictGet_projectMap_isSome (r : DailyActivitiesResponse) (k : Int) :
    (dictGet k (projectMapOf r)).isSome = true ↔ ∃ p ∈ r.projects, p.id = k := by
  rw [dictGet_isSome_iff, projectMapOf, mem_dictKeys_dictOf]
  simp [List.mem_map]

theorem dictGet_userMap_isSome (r : DailyActivitiesResponse) (k : Int) :
    (dictGet k (userMapOf r)).isSome = true ↔ ∃ u ∈ r.users, u.id = k := by
  rw [dictGet_isSome_iff, userMapOf, mem_dictKeys_dictOf]
  simp [List.mem_map]

theorem accumulate_eq_accumLoop (r : DailyActivitiesResponse) :
    accumulate_activities r
      = accumLoop (projectMapOf r) (userMapOf r) r.daily_activities
          (dictOfKeys
            (fun _ => dictOfKeys (fun _ => (0 : Int)) (sortedAsc (dictValues (userMapOf r))))
            (sortedAsc (dictValues (projectMapOf r)))) := rfl

theorem accumulate_structure {r : DailyActivitiesResponse} {m : ActivityMatrix}
    (h : accumulate_activities r = some m) :
    rowKeys m = setUnion [] (sortedAsc (dictValues (projectMapOf r)))
    ∧ ∀ pr ∈ m, colKeys pr.2 = setUnion [] (sortedAsc (dictValues (userMapOf r))) := by
  rw [accumulate_eq_accumLoop] at h
  constructor
  · rw [accumLoop_some_keys _ _ _ _ _ h]
    show dictKeys _ = _
    rw [dictKeys_dictOfKeys]
  · intro pr hpr
    rcases accumLoop_some_cols _ _ _ _ _ h pr hpr with ⟨pr₀, hpr₀, hc⟩
    rw [hc, snd_mem_dictOfKeys hpr₀]
    show dictKeys _ = _
    rw [dictKeys_dictOfKeys]

theorem accumulate_cellGet {r : DailyActivitiesResponse} {m : ActivityMatrix}
    (h : accumulate_activities r = some m) (q w : String) :
    cellGet m q w
      = if q ∈ dictValues (projectMapOf r) ∧ w ∈ dictValues (userMapOf r)
          then some (trackedSum (projectMapOf r) (userMapOf r) q w r.daily_activities)
          else none := by
  rw [accumulate_eq_accumLoop] at h
  rw [accumLoop_cellGet _ _ _ _ _ h q w]
  have hinit : cellGet
      (dictOfKeys
        (fun _ => dictOfKeys (fun _ => (0 : Int)) (sortedAsc (dictValues (userMapOf r))))
        (sortedAsc (dictValues (projectMapOf r)))) q w
      = if q ∈ dictValues (projectMapOf r) ∧ w ∈ dictValues (userMapOf r)
          then some 0 else none := by
    rw [cellGet, dictGet_dictOfKeys]
    by_cases hq : q ∈ dictValues (projectMapOf r)
    · rw [if_pos ((mem_sortedAsc _ _).mpr hq), Option.some_bind, dictGet_dictOfKeys]
      by_cases hw : w ∈ dictValues (userMapOf r)
      · rw [if_pos ((mem_sortedAsc _ _).mpr hw), if_pos ⟨hq, hw⟩]
      · rw [if_neg (fun hc => hw ((mem_sortedAsc _ _).mp hc)),
          if_neg (fun hc => hw hc.2)]
    · rw [if_neg (fun hc => hq ((mem_sortedAsc _ _).mp hc)),
        if_neg (fun hc => hq hc.1)]
      rfl
  rw [hinit]
  by_cases hc : q ∈ dictValues (projectMapOf r) ∧ w ∈ dictValues (userMapOf r)
  · rw [if_pos hc, if_pos hc, Option.map_some', zero_add]
  · rw [if_neg hc, if_neg hc]
    rfl

theorem accumulate_some_of_resolvable {r : DailyActivitiesResponse}
    (hres : ∀ a ∈ r.daily_activities,
      (∃ p ∈ r.projects, p.id = a.project_id) ∧ (∃ u ∈ r.users, u.id = a.user_id)) :
    ∃ m, accumulate_activities r = some m := by
  rw [accumulate_eq_accumLoop]
  apply accumLoop_succeeds
  · intro a ha
    exact ⟨(dictGet_projectMap_isSome r a.project_id).mpr (hres a ha).1,
      (dictGet_userMap_isSome r a.user_id).mpr (hres a ha).2⟩
  · intro v hv
    show v ∈ dictKeys _
    rw [dictKeys_dictOfKeys, mem_setUnion, mem_sortedAsc]
    exact Or.inr hv
  · intro pr hpr v hv
    rw [colKeys, ← dictKeys, snd_mem_dictOfKeys hpr, dictKeys_dictOfKeys,
      mem_setUnion, mem_sortedAsc]
    exact Or.inr hv

theorem dictValues_projectMapOf {r : DailyActivitiesResponse}
    (h : (r.projects.map Project.id).Nodup) :
    dictValues (projectMapOf r) = r.projects.map Project.name := by
  rw [projectMapOf, dictOf_eq_self]
  · simp [dictValues, List.map_map, Function.comp]
  · simpa [List.map_map, Function.comp] using h

theorem dictValues_userMapOf {r : DailyActivitiesResponse}
    (h : (r.users.map User.id).Nodup) :
    dictValues (userMapOf r) = r.users.map User.name := by
  rw [userMapOf, dictOf_eq_self]
  · simp [dictValues, List.map_map, Function.comp]
  · simpa [List.map_map, Function.comp] using h

/-! ## Lemmas: pagination against a page script -/

theorem setUnion_append [DecidableEq α] (s t t' : List α) :
    setUnion s (t ++ t') = setUnion (setUnion s t) t' := by
  simp [setUnion, List.foldl_append]

theorem get_organizations_loop_script (server : Nat → OrganizationsResponse)
    (last : OrganizationsResponse) (hlast : last.pagination = none) :
    ∀ (ps : List OrganizationsResponse) (fuel k : Nat) (param : Option Int)
      (acc : List OrganizationModel) (trace : List (Option Int)),
      (∀ p ∈ ps, (p.pagination).isSome = true) →
      (∀ i, i ≤ ps.length → server (k + i) = (ps ++ [last]).getD i last) →
      ps.length + 1 ≤ fuel →
      get_organizations_loop server fuel k param acc trace
        = some (acc ++ (ps ++ [last]).flatMap OrganizationsResponse.organizations,
            trace ++ param :: ps.map OrganizationsResponse.pagination) := by
  intro ps
  induction ps with
  | nil =>
    intro fuel k param acc trace _ hserver hfuel
    match fuel, hfuel with
    | fuel + 1, _ =>
      have hk : server k = last := by
        have := hserver 0 (Nat.zero_le _)
        simpa using this
      rw [get_organizations_loop]
      simp only [hk, hlast]
      simp
  | cons p ps ih =>
    intro fuel k param acc trace hcur hserver hfuel
    match fuel, hfuel with
    | fuel + 1, hfuel =>
      have hk : server k = p := by
        have := hserver 0 (Nat.zero_le _)
        simpa using this
      rcases Option.isSome_iff_exists.mp (hcur p (List.mem_cons_self p ps)) with ⟨c, hc⟩
      rw [get_organizations_loop]
      simp only [hk, hc]
      rw [ih fuel (k + 1) (some c) (acc ++ p.organizations) (trace ++ [param])
        (fun q hq => hcur q (List.mem_cons.mpr (Or.inr hq)))
        (fun i hi => by
          have := hserver (i + 1) (by simpa using Nat.succ_le_succ hi)
          rw [show k + (i + 1) = k + 1 + i by omega] at this
          simpa using this)
        (Nat.lt_succ_iff.mp hfuel)]
      simp [hc, List.append_assoc]

theorem get_operations_loop_script (server : Nat → DailyActivitiesResponse)
    (last : DailyActivitiesResponse) (hlast : last.pagination = none) :
    ∀ (ps : List DailyActivitiesResponse) (fuel k : Nat) (param : Option Int)
      (result : DailyActivitiesResponse) (trace : List (Option Int)),
      (∀ p ∈ ps, (p.pagination).isSome = true) →
      (∀ i, i ≤ ps.length → server (k + i) = (ps ++ [last]).getD i last) →
      ps.length + 1 ≤ fuel →
      get_operations_loop server fuel k param result trace
        = some ({ result with
              daily_activities := result.daily_activities
                ++ (ps ++ [last]).flatMap DailyActivitiesResponse.daily_activities
              users := setUnion result.users
                ((ps ++ [last]).flatMap DailyActivitiesResponse.users)
              projects := setUnion result.projects
                ((ps ++ [last]).flatMap DailyActivitiesResponse.projects) },
            trace ++ param :: ps.map DailyActivitiesResponse.pagination) := by
  intro ps
  induction ps with
  | nil =>
    intro fuel k param result trace _ hserver hfuel
    match fuel, hfuel with
    | fuel + 1, _ =>
      have hk : server k = last := by
        have := hserver 0 (Nat.zero_le _)
        simpa using this
      rw [get_operations_loop]
      simp only [hk, hlast]
      simp [setUnion]
  | cons p ps ih =>
    intro fuel k param result trace hcur hserver hfuel
    match fuel, hfuel with
    | fuel + 1, hfuel =>
      have hk : server k = p := by
        have := hserver 0 (Nat.zero_le _)
        simpa using this
      rcases Option.isSome_iff_exists.mp (hcur p (List.mem_cons_self p ps)) with ⟨c, hc⟩
      rw [get_operations_loop]
      simp only [hk, hc]
      rw [ih fuel (k + 1) (some c)
        ({ result with
            daily_activities := result.daily_activities ++ p.daily_activities
            users := setUnion result.users p.users
            projects := setUnion result.projects p.projects })
        (trace ++ [param])
        (fun q hq => hcur q (List.mem_cons.mpr (Or.inr hq)))
        (fun i hi => by
          have := hserver (i + 1) (by simpa using Nat.succ_le_succ hi)
          rw [show k + (i + 1) = k + 1 + i by omega] at this
          simpa using this)
        (Nat.lt_succ_iff.mp hfuel)]
      simp only [List.cons_append, List.flatMap_cons, List.append_assoc,
        List.map_cons, hc]
      simp [setUnion_append, setUnion]

/-! ## Lemmas: pagination termination -/

theorem get_organizations_loop_some_imp (server : Nat → OrganizationsResponse) :
    ∀ (fuel k : Nat) (param : Option Int) (acc : List OrganizationModel)
      (trace : List (Option Int)) r,
      get_organizations_loop server fuel k param acc trace = some r →
      ∃ i, (server (k + i)).pagination = none := by
  intro fuel
  induction fuel with
  | zero => intro k param acc trace r h; exact Option.noConfusion h
  | succ fuel ih =>
    intro k param acc trace r h
    rw [get_organizations_loop] at h
    cases hp : (server k).pagination with
    | none => exact ⟨0, by simpa using hp⟩
    | some c =>
      simp only [hp] at h
      rcases ih (k + 1) (some c) _ _ _ h with ⟨i, hi⟩
      refine ⟨i + 1, ?_⟩
      rw [show k + (i + 1) = k + 1 + i by omega]
      exact hi

theorem get_organizations_loop_some_of (server : Nat → OrganizationsResponse) :
    ∀ (fuel k : Nat), (∃ i < fuel, (server (k + i)).pagination = none) →
      ∀ (param : Option Int) (acc : List OrganizationModel) (trace : List (Option Int)),
        ∃ r, get_organizations_loop server fuel k param acc trace = some r := by
  intro fuel
  induction fuel with
  | zero =>
    intro k h
    rcases h with ⟨i, hi, _⟩
    exact absurd hi (Nat.not_lt_zero i)
  | succ fuel ih =>
    intro k h param acc trace
    rw [get_organizations_loop]
    cases hp : (server k).pagination with
    | none => exact ⟨_, rfl⟩
    | some c =>
      rcases h with ⟨i, hi, hnone⟩
      cases i with
      | zero => rw [Nat.add_zero] at hnone; rw [hnone] at hp; exact Option.noConfusion hp
      | succ i =>
        have : ∃ i' < fuel, (server (k + 1 + i')).pagination = none := by
          refine ⟨i, Nat.lt_of_succ_lt_succ hi, ?_⟩
          rw [show k + 1 + i = k + (i + 1) by omega]
          exact hnone
        simpa using ih (k + 1) this (some c) (acc ++ (server k).organizations)
          (trace ++ [param])

theorem get_operations_loop_some_imp (server : Nat → DailyActivitiesResponse) :
    ∀ (fuel k : Nat) (param : Option Int) (result : DailyActivitiesResponse)
      (trace : List (Option Int)) r,
      get_operations_loop server fuel k param result trace = some r →
      ∃ i, (server (k + i)).pagination = none := by
  intro fuel
  induction fuel with
  | zero => intro k param result trace r h; exact Option.noConfusion h
  | succ fuel ih =>
    intro k param result trace r h
    rw [get_operations_loop] at h
    cases hp : (server k).pagination with
    | none => exact ⟨0, by simpa using hp⟩
    | some c =>
      simp only [hp] at h
      rcases ih (k + 1) (some c) _ _ _ h with ⟨i, hi⟩
      refine ⟨i + 1, ?_⟩
      rw [show k + (i + 1) = k + 1 + i by omega]
      exact hi

theorem get_operations_loop_some_of (server : Nat → DailyActivitiesResponse) :
    ∀ (fuel k : Nat), (∃ i < fuel, (server (k + i)).pagination = none) →
      ∀ (param : Option Int) (result : DailyActivitiesResponse)
        (trace : List (Option Int)),
        ∃ r, get_operations_loop server fuel k param result trace = some r := by
  intro fuel
  induction fuel with
  | zero =>
    intro k h
    rcases h with ⟨i, hi, _⟩
    exact absurd hi (Nat.not_lt_zero i)
  | succ fuel ih =>
    intro k h param result trace
    rw [get_operations_loop]
    cases hp : (server k).pagination with
    | none => exact ⟨_, rfl⟩
    | some c =>
      rcases h with ⟨i, hi, hnone⟩
      cases i with
      | zero => rw [Nat.add_zero] at hnone; rw [hnone] at hp; exact Option.noConfusion hp
      | succ i =>
        have : ∃ i' < fuel, (server (k + 1 + i')).pagination = none := by
          refine ⟨i, Nat.lt_of_succ_lt_succ hi, ?_⟩
          rw [show k + 1 + i = k + (i + 1) by omega]
          exact hnone
        simpa using ih (k + 1) this (some c) _ (trace ++ [param])

/-! ## Claim theorems -/

/-- C1 counterexample: `respDupIds` satisfies the claim's hypothesis (every
activity resolves — there are none), yet the produced matrix has the single
row "B" although both "A" and "B" are distinct project names of the
response: because the two projects share id 1, the `project_id → name` dict
keeps only the later entry, so the rows are not "exactly the distinct
project names". -/
theorem C1_duplicate_id_rows_cex :
    (∀ a ∈ respDupIds.daily_activities,
      (∃ p ∈ respDupIds.projects, p.id = a.project_id)
        ∧ (∃ u ∈ respDupIds.users, u.id = a.user_id))
    ∧ accumulate_activities respDupIds = some [("B", [])]
    ∧ ¬ (∀ s, s ∈ rowKeys ([("B", [])] : ActivityMatrix)
          ↔ s ∈ respDupIds.projects.map Project.name) :=
  ⟨by decide, by rfl, fun h => by
    have hA : "A" ∈ rowKeys ([("B", [])] : ActivityMatrix) :=
      (h "A").mpr (by decide)
    exact absurd hA (by decide)⟩

/-- C1 (amended with the hypothesis that project ids and user ids are
pairwise distinct, which the duplicate-id counterexample forces): for every
response whose activities all resolve, `accumulate_activities` succeeds and
returns the full cartesian cross table: the rows are exactly the distinct
project names in ascending order, every row's columns are exactly the
distinct user names in ascending order (strict sortedness = sorted and
deduplicated), every cell is present (zero-initialized), and cell (p, u)
holds the sum of the tracked seconds of the activities resolving to
project name p and user name u. -/
theorem C1_accumulate_cross_table (r : DailyActivitiesResponse)
    (hpid : (r.projects.map Project.id).Nodup)
    (huid : (r.users.map User.id).Nodup)
    (hres : ∀ a ∈ r.daily_activities,
      (∃ p ∈ r.projects, p.id = a.project_id) ∧ (∃ u ∈ r.users, u.id = a.user_id)) :
    ∃ m, accumulate_activities r = some m
      ∧ List.Pairwise (· < ·) (rowKeys m)
      ∧ (∀ s, s ∈ rowKeys m ↔ s ∈ r.projects.map Project.name)
      ∧ (∀ pr ∈ m, List.Pairwise (· < ·) (colKeys pr.2)
          ∧ (∀ s, s ∈ colKeys pr.2 ↔ s ∈ r.users.map User.name))
      ∧ (∀ p u, p ∈ r.projects.map Project.name → u ∈ r.users.map User.name →
          cellGet m p u
            = some (trackedSum (projectMapOf r) (userMapOf r) p u
                r.daily_activities)) := by
  obtain ⟨m, hm⟩ := accumulate_some_of_resolvable hres
  obtain ⟨hrows, hcols⟩ := accumulate_structure hm
  have hvp := dictValues_projectMapOf hpid
  have hvu := dictValues_userMapOf huid
  refine ⟨m, hm, ?_, ?_, ?_, ?_⟩
  · rw [hrows]
    exact dedup_of_sorted_pairwise_lt (sortedAsc_sorted _)
  · intro s
    rw [hrows, mem_setUnion, mem_sortedAsc, hvp]
    simp
  · intro pr hpr
    rw [hcols pr hpr]
    refine ⟨dedup_of_sorted_pairwise_lt (sortedAsc_sorted _), ?_⟩
    intro s
    rw [mem_setUnion, mem_sortedAsc, hvu]
    simp
  · intro p u hp hu
    rw [accumulate_cellGet hm, if_pos ⟨by rw [hvp]; exact hp, by rw [hvu]; exact hu⟩]

/-- C1 witness: the spec's concrete example — projects A and B, users X
and Y, the single activity (A, X, tracked=3600) — produces the matrix
A↦(X↦3600, Y↦0), B↦(X↦0, Y↦0), and the amended theorem applies to it. -/
theorem C1_accumulate_cross_table_witness :
    accumulate_activities exResp
        = some [("A", [("X", 3600), ("Y", 0)]), ("B", [("X", 0), ("Y", 0)])]
    ∧ ∃ m, accumulate_activities exResp = some m
      ∧ List.Pairwise (· < ·) (rowKeys m)
      ∧ (∀ s, s ∈ rowKeys m ↔ s ∈ exResp.projects.map Project.name)
      ∧ (∀ pr ∈ m, List.Pairwise (· < ·) (colKeys pr.2)
          ∧ (∀ s, s ∈ colKeys pr.2 ↔ s ∈ exResp.users.map User.name))
      ∧ (∀ p u, p ∈ exResp.projects.map Project.name →
          u ∈ exResp.users.map User.name →
          cellGet m p u
            = some (trackedSum (projectMapOf exResp) (userMapOf exResp) p u
                exResp.daily_activities)) :=
  ⟨by rfl, C1_accumulate_cross_table exResp (by decide) (by decide) (by decide)⟩

/-- C6: an activity whose `project_id` or `user_id` resolves through no
project/user of the response makes `accumulate_activities` fail with the
lookup error (`none` embeds the raised `KeyError`) instead of dropping the
record. -/
theorem C6_lookup_error_on_unresolved (r : DailyActivitiesResponse)
    (a : DailyActivity) (ha : a ∈ r.daily_activities)
    (hbad : (∀ p ∈ r.projects, p.id ≠ a.project_id)
      ∨ (∀ u ∈ r.users, u.id ≠ a.user_id)) :
    accumulate_activities r = none := by
  rw [accumulate_eq_accumLoop]
  refine accumLoop_none_of_unresolved _ _ ha ?_ _
  rcases hbad with h | h
  · left
    rw [dictGet_eq_none_iff]
    intro hmem
    rw [projectMapOf, mem_dictKeys_dictOf] at hmem
    simp only [List.map_map, List.mem_map, Function.comp] at hmem
    rcases hmem with ⟨p, hp, he⟩
    exact h p hp he
  · right
    rw [dictGet_eq_none_iff]
    intro hmem
    rw [userMapOf, mem_dictKeys_dictOf] at hmem
    simp only [List.map_map, List.mem_map, Function.comp] at hmem
    rcases hmem with ⟨u, hu, he⟩
    exact h u hu he

/-- C6 witness: `respBadLookup` carries an activity with `project_id = 99`
which no project of the response has, and aggregation fails. -/
theorem C6_lookup_error_on_unresolved_witness :
    actBadLookup ∈ respBadLookup.daily_activities
    ∧ (∀ p ∈ respBadLookup.projects, p.id ≠ actBadLookup.project_id)
    ∧ accumulate_activities respBadLookup = none :=
  ⟨by decide, by decide,
    C6_lookup_error_on_unresolved respBadLookup actBadLookup (by decide)
      (Or.inl (by decide))⟩

/-- C8: two responses with the same projects and users whose activity lists
are permutations of each other produce matrices with the same rows (same
set, same order) and the same columns in every row: the matrix dimensions
and ordering depend only on the projects/users present, not on activity
record order. -/
theorem C8_activity_order_independence (r₁ r₂ : DailyActivitiesResponse)
    (hp : r₁.projects = r₂.projects) (hu : r₁.users = r₂.users)
    (hperm : List.Perm r₁.daily_activities r₂.daily_activities)
    (m₁ m₂ : ActivityMatrix)
    (h₁ : accumulate_activities r₁ = some m₁)
    (h₂ : accumulate_activities r₂ = some m₂) :
    rowKeys m₁ = rowKeys m₂
    ∧ (∀ pr ∈ m₁, ∀ pr' ∈ m₂, colKeys pr.2 = colKeys pr'.2) := by
  obtain ⟨hr₁, hc₁⟩ := accumulate_structure h₁
  obtain ⟨hr₂, hc₂⟩ := accumulate_structure h₂
  have hpm : projectMapOf r₁ = projectMapOf r₂ := by
    rw [projectMapOf, projectMapOf, hp]
  have hum : userMapOf r₁ = userMapOf r₂ := by
    rw [userMapOf, userMapOf, hu]
  constructor
  · rw [hr₁, hr₂, hpm]
  · intro pr hpr pr' hpr'
    rw [hc₁ pr hpr, hc₂ pr' hpr', hum]

/-- C8 witness: the two orderings of the same two activities over projects
A, B and users X, Y produce the same matrix skeleton. -/
theorem C8_activity_order_independence_witness :
    List.Perm exResp2a.daily_activities exResp2b.daily_activities
    ∧ (rowKeys [("A", [("X", (3600 : Int)), ("Y", 0)]), ("B", [("X", 0), ("Y", 1800)])]
          = rowKeys [("A", [("X", (3600 : Int)), ("Y", 0)]), ("B", [("X", 0), ("Y", 1800)])]
        ∧ ∀ pr ∈ ([("A", [("X", (3600 : Int)), ("Y", 0)]),
              ("B", [("X", 0), ("Y", 1800)])] : ActivityMatrix),
            ∀ pr' ∈ ([("A", [("X", (3600 : Int)), ("Y", 0)]),
              ("B", [("X", 0), ("Y", 1800)])] : ActivityMatrix),
            colKeys pr.2 = colKeys pr'.2) :=
  ⟨by decide,
    C8_activity_order_independence exResp2a exResp2b rfl rfl (by decide)
      [("A", [("X", (3600 : Int)), ("Y", 0)]), ("B", [("X", 0), ("Y", 1800)])]
      [("A", [("X", (3600 : Int)), ("Y", 0)]), ("B", [("X", 0), ("Y", 1800)])]
      (by rfl) (by rfl)⟩

/-- C10: when two projects with different ids share a name (and likewise
two users), the aggregator keys rows and columns by name: there is exactly
one row under the shared project name and exactly one column under the
shared user name in every row, activities of either project resolve to the
one shared row, and its cells accumulate the tracked seconds of all
activities resolving to that name. -/
theorem C10_equal_names_collapse (r : DailyActivitiesResponse)
    (hpid : (r.projects.map Project.id).Nodup)
    (huid : (r.users.map User.id).Nodup)
    (p₁ p₂ : Project) (hp₁ : p₁ ∈ r.projects) (hp₂ : p₂ ∈ r.projects)
    (hpne : p₁.id ≠ p₂.id) (hpname : p₁.name = p₂.name)
    (u₁ u₂ : User) (hu₁ : u₁ ∈ r.users) (hu₂ : u₂ ∈ r.users)
    (hune : u₁.id ≠ u₂.id) (huname : u₁.name = u₂.name)
    (m : ActivityMatrix) (hm : accumulate_activities r = some m) :
    (rowKeys m).count p₁.name = 1
    ∧ (∀ pr ∈ m, (colKeys pr.2).count u₁.name = 1)
    ∧ (∀ a : DailyActivity, a.project_id = p₁.id ∨ a.project_id = p₂.id →
        dictGet a.project_id (projectMapOf r) = some p₁.name)
    ∧ (∀ a : DailyActivity, a.user_id = u₁.id ∨ a.user_id = u₂.id →
        dictGet a.user_id (userMapOf r) = some u₁.name)
    ∧ (∀ u, u ∈ r.users.map User.name →
        cellGet m p₁.name u
          = some (trackedSum (projectMapOf r) (userMapOf r) p₁.name u
              r.daily_activities)) := by
  obtain ⟨hrows, hcols⟩ := accumulate_structure hm
  have hvp := dictValues_projectMapOf hpid
  have hvu := dictValues_userMapOf huid
  have hpmem : p₁.name ∈ dictValues (projectMapOf r) := by
    rw [hvp]
    exact List.mem_map.mpr ⟨p₁, hp₁, rfl⟩
  have humem : u₁.name ∈ dictValues (userMapOf r) := by
    rw [hvu]
    exact List.mem_map.mpr ⟨u₁, hu₁, rfl⟩
  have hpmSelf : projectMapOf r = r.projects.map fun p => (p.id, p.name) := by
    rw [projectMapOf, dictOf_eq_self]
    simpa [List.map_map, Function.comp] using hpid
  have humSelf : userMapOf r = r.users.map fun u => (u.id, u.name) := by
    rw [userMapOf, dictOf_eq_self]
    simpa [List.map_map, Function.comp] using huid
  have hpndKeys : ((r.projects.map fun p => (p.id, p.name)).map Prod.fst).Nodup := by
    simpa [List.map_map, Function.comp] using hpid
  have hundKeys : ((r.users.map fun u => (u.id, u.name)).map Prod.fst).Nodup := by
    simpa [List.map_map, Function.comp] using huid
  refine ⟨?_, ?_, ?_, ?_, ?_⟩
  · have hmem : p₁.name ∈ rowKeys m := by
      rw [hrows, mem_setUnion, mem_sortedAsc]
      exact Or.inr hpmem
    have hnd : (rowKeys m).Nodup := by
      rw [hrows]
      exact nodup_setUnion _ List.nodup_nil
    exact List.count_eq_one_of_mem hnd hmem
  · intro pr hpr
    have hmem : u₁.name ∈ colKeys pr.2 := by
      rw [hcols pr hpr, mem_setUnion, mem_sortedAsc]
      exact Or.inr humem
    have hnd : (colKeys pr.2).Nodup := by
      rw [hcols pr hpr]
      exact nodup_setUnion _ List.nodup_nil
    exact List.count_eq_one_of_mem hnd hmem
  · intro a hcase
    rcases hcase with hcase | hcase
    · rw [hcase, hpmSelf]
      exact dictGet_of_mem_nodup hpndKeys (List.mem_map.mpr ⟨p₁, hp₁, rfl⟩)
    · rw [hcase, hpmSelf, hpname]
      exact dictGet_of_mem_nodup hpndKeys (List.mem_map.mpr ⟨p₂, hp₂, rfl⟩)
  · intro a hcase
    rcases hcase with hcase | hcase
    · rw [hcase, humSelf]
      exact dictGet_of_mem_nodup hundKeys (List.mem_map.mpr ⟨u₁, hu₁, rfl⟩)
    · rw [hcase, humSelf, huname]
      exact dictGet_of_mem_nodup hundKeys (List.mem_map.mpr ⟨u₂, hu₂, rfl⟩)
  · intro u hu
    rw [accumulate_cellGet hm, if_pos ⟨hpmem, by rw [hvu]; exact hu⟩]

/-- C10 witness: two projects named "P" (ids 1, 2) and two users named "U"
(ids 10, 11) collapse to a 1×1 matrix, whose only cell sums the activities
of both projects and both users (100 + 50 = 150). -/
theorem C10_equal_names_collapse_witness :
    accumulate_activities respShared = some [("P", [("U", 150)])]
    ∧ ((rowKeys [("P", [("U", (150 : Int))])]).count "P" = 1
      ∧ (∀ pr ∈ [("P", [("U", (150 : Int))])], (colKeys pr.2).count "U" = 1)
      ∧ (∀ a : DailyActivity, a.project_id = pShared1.id ∨ a.project_id = pShared2.id →
          dictGet a.project_id (projectMapOf respShared) = some pShared1.name)
      ∧ (∀ a : DailyActivity, a.user_id = uShared1.id ∨ a.user_id = uShared2.id →
          dictGet a.user_id (userMapOf respShared) = some uShared1.name)
      ∧ (∀ u, u ∈ respShared.users.map User.name →
          cellGet [("P", [("U", (150 : Int))])] pShared1.name u
            = some (trackedSum (projectMapOf respShared) (userMapOf respShared)
                pShared1.name u respShared.daily_activities))) :=
  ⟨by rfl,
    C10_equal_names_collapse respShared (by decide) (by decide)
      pShared1 pShared2 (by decide) (by decide) (by decide) (by decide)
      uShared1 uShared2 (by decide) (by decide) (by decide) (by decide)
      [("P", [("U", 150)])] (by rfl)⟩

/-- C3: after transport failures on the first two attempts, the retry
wrapper issues a third underlying call, waits 1 second before each retry
(2 seconds total), and the whole operation's outcome is exactly the third
attempt's outcome: a success succeeds after exactly 3 underlying calls, and
a third failure is re-raised unchanged with no wrapping. -/
theorem C3_transient_retry_three_attempts {α : Type} (outcomes : Nat → Except ReqError α)
    (e₀ e₁ : String)
    (h0 : outcomes 0 = Except.error (ReqError.transport e₀))
    (h1 : outcomes 1 = Except.error (ReqError.transport e₁)) :
    send_request outcomes = (outcomes 2, 3, 2) := by
  rw [send_request, retrySend, h0]
  rw [retrySend, h1]
  rw [retrySend]

/-- C3 witness: two transport failures then a success make exactly 3 calls,
2 seconds of fixed delay, and succeed with the third attempt's payload. -/
theorem C3_transient_retry_three_attempts_witness :
    outcomesTransientEx 0 = Except.error (ReqError.transport "connection reset")
    ∧ send_request outcomesTransientEx = (outcomesTransientEx 2, 3, 2)
    ∧ outcomesTransientEx 2 = Except.ok "payload" :=
  ⟨by rfl, C3_transient_retry_three_attempts outcomesTransientEx _ _ (by rfl) (by rfl),
    by rfl⟩

/-- C4: a schema-validation failure is permanent: the retry wrapper makes
exactly 1 underlying call, waits not at all, and raises the validation
error immediately. -/
theorem C4_validation_aborts_immediately {α : Type} (outcomes : Nat → Except ReqError α)
    (s : String) (h0 : outcomes 0 = Except.error (ReqError.validation s)) :
    send_request outcomes = (Except.error (ReqError.validation s), 1, 0) := by
  rw [send_request, retrySend, h0]

/-- C4 witness: a body failing schema validation on the first call aborts
after exactly that one call. -/
theorem C4_validation_aborts_immediately_witness :
    outcomesValidationEx 0
        = Except.error (ReqError.validation "missing field auth_token")
    ∧ send_request outcomesValidationEx
        = (Except.error (ReqError.validation "missing field auth_token"), 1, 0) :=
  ⟨by rfl,
    C4_validation_aborts_immediately outcomesValidationEx _ (by rfl)⟩

/-- C5 counterexample: a sign-in endpoint answering a non-2xx status on
every attempt.  The claim says the sign-in call "is not retried", which
would mean exactly 1 underlying call; but `authenticate` goes through
`__send_request`, whose retry policy exempts only `ValidationError` — the
`HTTPError` raised by the non-2xx hook is transient, so the constructor
makes 3 underlying sign-in calls, not 1. -/
theorem C5_signin_retried_cex :
    hubstaffInit signinRejectEx
        = (Except.error (ReqError.transport "HTTP 401 Unauthorized"), 3)
    ∧ (3 : Nat) ≠ 1 :=
  ⟨by rfl, by decide⟩

/-- C5 (amended: the sign-in request is retried like any other request,
because the code does not distinguish a definitive auth rejection from a
transient transport failure): when the sign-in endpoint answers a non-2xx
status on every attempt, session construction fails with the HTTP error of
the last attempt after 3 underlying sign-in calls, and the client issues no
subsequent API request. -/
theorem C5_auth_failure_propagates (signin : Nat → Except ReqError String)
    (orgServer : Nat → OrganizationsResponse) (fuel : Nat) (e₀ e₁ e₂ : String)
    (h0 : signin 0 = Except.error (ReqError.transport e₀))
    (h1 : signin 1 = Except.error (ReqError.transport e₁))
    (h2 : signin 2 = Except.error (ReqError.transport e₂)) :
    clientRun signin orgServer fuel = (Except.error (ReqError.transport e₂), 3, 0) := by
  rw [clientRun, hubstaffInit, send_request, retrySend, h0]
  rw [retrySend, h1]
  rw [retrySend, h2]

/-- C5 witness: the always-rejecting sign-in endpoint makes session
construction fail after 3 sign-in calls and 0 API calls. -/
theorem C5_auth_failure_propagates_witness :
    signinRejectEx 0 = Except.error (ReqError.transport "HTTP 401 Unauthorized")
    ∧ clientRun signinRejectEx orgServerEx 2
        = (Except.error (ReqError.transport "HTTP 401 Unauthorized"), 3, 0) :=
  ⟨by rfl,
    C5_auth_failure_propagates signinRejectEx orgServerEx 2 _ _ _
      (by rfl) (by rfl) (by rfl)⟩

theorem getD_append_last_mem (l : List α) (last : α) (i : Nat) :
    (l ++ [last]).getD i last ∈ l ++ [last] := by
  by_cases hi : i < (l ++ [last]).length
  · rw [List.getD_eq_getElem _ _ hi]
    exact List.getElem_mem hi
  · rw [List.getD_eq_default _ _ (le_of_not_lt hi)]
    simp

/-- C2: against a server that serves a script of N pages, each carrying a
cursor except the last, both paginators terminate and issue exactly N
requests (the parameter trace has one entry per request): the first request
carries no `page_start_id` and request i+1 carries the cursor of page i.
`get_organizations` returns the concatenation of the pages' organization
lists in arrival order; `get_operations_by_day` returns the concatenation
of the pages' `daily_activities` in arrival order and the deduplicated
union of the pages' `users` and `projects` sets. -/
theorem C2_paginator_merges_pages
    (orgPs : List OrganizationsResponse) (orgLast : OrganizationsResponse)
    (opPs : List DailyActivitiesResponse) (opLast : DailyActivitiesResponse)
    (orgServer : Nat → OrganizationsResponse) (opServer : Nat → DailyActivitiesResponse)
    (fuel₁ fuel₂ : Nat)
    (ho1 : ∀ p ∈ orgPs, (p.pagination).isSome = true)
    (ho2 : orgLast.pagination = none)
    (ho3 : ∀ i, i ≤ orgPs.length → orgServer i = (orgPs ++ [orgLast]).getD i orgLast)
    (ho4 : orgPs.length + 1 ≤ fuel₁)
    (hp1 : ∀ p ∈ opPs, (p.pagination).isSome = true)
    (hp2 : opLast.pagination = none)
    (hp3 : ∀ i, i ≤ opPs.length → opServer i = (opPs ++ [opLast]).getD i opLast)
    (hp4 : opPs.length + 1 ≤ fuel₂) :
    (get_organizations orgServer fuel₁
        = some ((orgPs ++ [orgLast]).flatMap OrganizationsResponse.organizations,
            none :: orgPs.map OrganizationsResponse.pagination)
      ∧ (none :: orgPs.map OrganizationsResponse.pagination).length
          = orgPs.length + 1)
    ∧ ∃ res : DailyActivitiesResponse,
        get_operations_by_day opServer fuel₂
          = some (res, none :: opPs.map DailyActivitiesResponse.pagination)
        ∧ res.daily_activities
            = (opPs ++ [opLast]).flatMap DailyActivitiesResponse.daily_activities
        ∧ (∀ x : User, x ∈ res.users ↔ ∃ pg ∈ opPs ++ [opLast], x ∈ pg.users)
        ∧ (∀ x : Project, x ∈ res.projects ↔ ∃ pg ∈ opPs ++ [opLast], x ∈ pg.projects)
        ∧ (none :: opPs.map DailyActivitiesResponse.pagination).length
            = opPs.length + 1 := by
  constructor
  · constructor
    · rw [get_organizations,
        get_organizations_loop_script orgServer orgLast ho2 orgPs fuel₁ 0 none [] []
          ho1 (fun i hi => by simpa using ho3 i hi) ho4]
      simp
    · simp
  · have h := get_operations_loop_script opServer opLast hp2 opPs fuel₂ 0 none
      ⟨none, [], [], []⟩ [] hp1 (fun i hi => by simpa using hp3 i hi) hp4
    refine ⟨⟨none,
        (opPs ++ [opLast]).flatMap DailyActivitiesResponse.daily_activities,
        setUnion [] ((opPs ++ [opLast]).flatMap DailyActivitiesResponse.users),
        setUnion [] ((opPs ++ [opLast]).flatMap DailyActivitiesResponse.projects)⟩,
      ?_, rfl, ?_, ?_, by simp⟩
    · rw [get_operations_by_day, h]
      rfl
    · intro x
      show x ∈ setUnion [] _ ↔ _
      rw [mem_setUnion]
      simp only [List.not_mem_nil, false_or, List.mem_flatMap, List.mem_append,
        List.mem_singleton]
    · intro x
      show x ∈ setUnion [] _ ↔ _
      rw [mem_setUnion]
      simp only [List.not_mem_nil, false_or, List.mem_flatMap, List.mem_append,
        List.mem_singleton]

/-- C2 witness: a two-page organizations script and a two-page operations
script are merged as the claim states, with the parameter trace recording
the first request without `page_start_id` and the second carrying the first
page's cursor. -/
theorem C2_paginator_merges_pages_witness :
    (get_organizations orgServerEx 2
        = some ([⟨1, "Org1"⟩, ⟨2, "Org2"⟩], [none, some 7])
      ∧ ([none, some (7 : Int)] : List (Option Int)).length = 2)
    ∧ ∃ res : DailyActivitiesResponse,
        get_operations_by_day opServerEx 2 = some (res, [none, some 3])
        ∧ res.daily_activities = [actAX, actBY]
        ∧ (∀ x : User, x ∈ res.users ↔ ∃ pg ∈ [opPage0, opLastPage], x ∈ pg.users)
        ∧ (∀ x : Project,
            x ∈ res.projects ↔ ∃ pg ∈ [opPage0, opLastPage], x ∈ pg.projects)
        ∧ ([none, some (3 : Int)] : List (Option Int)).length = 2 :=
  C2_paginator_merges_pages [orgPage0] orgLastPage [opPage0] opLastPage
    orgServerEx opServerEx 2 2 (by decide) rfl (fun i _ => rfl) (by decide)
    (by decide) rfl (fun i _ => rfl) (by decide)

/-- C7: if the same Project value appears on two different pages of one
`get_operations_by_day` run (and likewise the same User value), the merged
`projects` (resp. `users`) set of the returned response contains exactly
one instance of that value. -/
theorem C7_cross_page_dedup
    (opPs : List DailyActivitiesResponse) (opLast : DailyActivitiesResponse)
    (server : Nat → DailyActivitiesResponse) (fuel : Nat)
    (h1 : ∀ p ∈ opPs, (p.pagination).isSome = true)
    (h2 : opLast.pagination = none)
    (h3 : ∀ i, i ≤ opPs.length → server i = (opPs ++ [opLast]).getD i opLast)
    (h4 : opPs.length + 1 ≤ fuel) :
    ∃ res trace, get_operations_by_day server fuel = some (res, trace)
      ∧ (∀ (x : Project) (i j : Nat), i ≠ j →
          x ∈ ((opPs ++ [opLast]).getD i opLast).projects →
          x ∈ ((opPs ++ [opLast]).getD j opLast).projects →
          res.projects.count x = 1)
      ∧ (∀ (y : User) (i j : Nat), i ≠ j →
          y ∈ ((opPs ++ [opLast]).getD i opLast).users →
          y ∈ ((opPs ++ [opLast]).getD j opLast).users →
          res.users.count y = 1) := by
  have h := get_operations_loop_script server opLast h2 opPs fuel 0 none
    ⟨none, [], [], []⟩ [] h1 (fun i hi => by simpa using h3 i hi) h4
  refine ⟨_, _, by rw [get_operations_by_day, h], ?_, ?_⟩
  · intro x i j _ hxi _
    have hmem : x ∈ setUnion []
        ((opPs ++ [opLast]).flatMap DailyActivitiesResponse.projects) := by
      rw [mem_setUnion]
      exact Or.inr (List.mem_flatMap.mpr
        ⟨(opPs ++ [opLast]).getD i opLast, getD_append_last_mem _ _ _, hxi⟩)
    exact List.count_eq_one_of_mem (nodup_setUnion _ List.nodup_nil) hmem
  · intro y i j _ hyi _
    have hmem : y ∈ setUnion []
        ((opPs ++ [opLast]).flatMap DailyActivitiesResponse.users) := by
      rw [mem_setUnion]
      exact Or.inr (List.mem_flatMap.mpr
        ⟨(opPs ++ [opLast]).getD i opLast, getD_append_last_mem _ _ _, hyi⟩)
    exact List.count_eq_one_of_mem (nodup_setUnion _ List.nodup_nil) hmem

/-- C7 witness: the same project value "P" and user value "U" appear on
both pages of a two-page run, and the merged sets hold exactly one
instance of each. -/
theorem C7_cross_page_dedup_witness :
    ∃ res trace, get_operations_by_day opServerShared 2 = some (res, trace)
      ∧ (∀ (x : Project) (i j : Nat), i ≠ j →
          x ∈ (([opPageShared0] ++ [opPageSharedLast]).getD i opPageSharedLast).projects →
          x ∈ (([opPageShared0] ++ [opPageSharedLast]).getD j opPageSharedLast).projects →
          res.projects.count x = 1)
      ∧ (∀ (y : User) (i j : Nat), i ≠ j →
          y ∈ (([opPageShared0] ++ [opPageSharedLast]).getD i opPageSharedLast).users →
          y ∈ (([opPageShared0] ++ [opPageSharedLast]).getD j opPageSharedLast).users →
          res.users.count y = 1) :=
  C7_cross_page_dedup [opPageShared0] opPageSharedLast opServerShared 2
    (by decide) rfl (fun i _ => rfl) (by decide)

/-- C9: each pagination loop terminates exactly when the server eventually
answers a page without a cursor — formally, some fuel bound suffices for
the loop to return if and only if some request index gets a cursor-free
response; the loop itself carries no page-count or time bound, so against a
server that carries a cursor on every page it returns for no fuel bound at
all (the `while` loop never exits). -/
theorem C9_termination_iff_cursor_absent :
    ∀ (orgServer : Nat → OrganizationsResponse)
      (opServer : Nat → DailyActivitiesResponse),
      ((∃ fuel r, get_organizations orgServer fuel = some r)
          ↔ ∃ k, (orgServer k).pagination = none)
      ∧ ((∃ fuel r, get_operations_by_day opServer fuel = some r)
          ↔ ∃ k, (opServer k).pagination = none) := by
  intro orgServer opServer
  constructor
  · constructor
    · rintro ⟨fuel, r, h⟩
      rcases get_organizations_loop_some_imp orgServer fuel 0 none [] [] r h
        with ⟨i, hi⟩
      exact ⟨i, by simpa using hi⟩
    · rintro ⟨k, hk⟩
      rcases get_organizations_loop_some_of orgServer (k + 1) 0
        ⟨k, Nat.lt_succ_self k, by simpa using hk⟩ none [] [] with ⟨r, hr⟩
      exact ⟨k + 1, r, hr⟩
  · constructor
    · rintro ⟨fuel, r, h⟩
      rcases get_operations_loop_some_imp opServer fuel 0 none ⟨none, [], [], []⟩ [] r h
        with ⟨i, hi⟩
      exact ⟨i, by simpa using hi⟩
    · rintro ⟨k, hk⟩
      rcases get_operations_loop_some_of opServer (k + 1) 0
        ⟨k, Nat.lt_succ_self k, by simpa using hk⟩ none ⟨none, [], [], []⟩ []
        with ⟨r, hr⟩
      exact ⟨k + 1, r, hr⟩

end HbsReport
